import Mathlib

/-!
Verification of the content sanitization pipeline of the Wysi rich-text editor
(src/filter.js, with its data from src/toolset.js, src/settings.js,
src/common.js and src/utils.js).

The pipeline operates on DOM trees produced by the browser's HTML parser
(`template.innerHTML` in `buildFragment`) and serialized back through
`container.innerHTML`. The DOM, its parser and its serializer are host
facilities, not repository code; they are modelled here by an explicit
node tree (`Node`), a total fuel-driven HTML parser (`parseHTML`) and a
serializer (`serializeNodes`) that follow the standard HTML fragment
parsing/serialization rules on the constructs the filter manipulates
(elements with attributes, text with character references, comments,
raw-text elements, void elements). JavaScript runtime errors
(`TypeError` from dereferencing `undefined`) are modelled with
`Except String`.

All definitions of repository functions (`enableTags`, `prepareContent`,
`filterContent` as `filterChildren`, `filterStyles` as `filterStylesVal`,
`wrapTextNodes`, `cleanContent` as `cleanList`, `replaceNode` as
`replaceWithTag`, `trimText`) are direct translations of src/filter.js.
-/

namespace Wysi

/-! ## String helpers (JavaScript semantics) -/

/-- Whitespace characters recognized by JavaScript's `String.prototype.trim`
and the `\s` regex class (WhiteSpace and LineTerminator code points). -/
def isJsWs (c : Char) : Bool :=
  c = ' ' ∨ c = '\t' ∨ c = '\n' ∨ c = '\r' ∨ c = '\u000B' ∨ c = '\u000C' ∨
  c = '\u00A0' ∨ c = '\uFEFF' ∨ c = '\u1680' ∨
  (0x2000 ≤ c.toNat ∧ c.toNat ≤ 0x200A) ∨
  c = '\u2028' ∨ c = '\u2029' ∨ c = '\u202F' ∨ c = '\u205F' ∨ c = '\u3000'

/-- ASCII whitespace, the class HTML tag parsing treats as separators
(distinct from `isJsWs`, which also covers Unicode spaces). -/
def isHtmlWs (c : Char) : Bool :=
  c = ' ' ∨ c = '\t' ∨ c = '\n' ∨ c = '\r' ∨ c = '\u000C'

/-- Models JavaScript `String.prototype.trim` (also the effect of
`trimText` in src/filter.js, whose regex replace of `^\s+|\s+$` followed
by `.trim()` is the same function). -/
def jsTrim (s : String) : String :=
  ⟨List.reverse (List.dropWhile isJsWs (List.reverse (List.dropWhile isJsWs s.data)))⟩

/-- Models JavaScript `String.prototype.split` with a single-character
separator: `"a;;b".split(';') = ["a","","b"]`, `"".split(';') = [""]`. -/
def splitChar (sep : Char) (s : String) : List String :=
  go s.data []
where
  go : List Char → List Char → List String
    | [], acc => [⟨acc.reverse⟩]
    | c :: cs, acc => if c = sep then (⟨acc.reverse⟩ : String) :: go cs [] else go cs (c :: acc)

/-! ## The DOM node tree

Element tag names are stored lower-case (the HTML parser lower-cases
them; `tagName` is the upper-case variant). Attributes are an ordered
list of name/value pairs with unique names. -/

mutual

inductive Node where
  | element : String → List (String × String) → NodeList → Node
  | text : String → Node
  | comment : String → Node

inductive NodeList where
  | nil : NodeList
  | cons : Node → NodeList → NodeList

end

def NodeList.append : NodeList → NodeList → NodeList
  | .nil, l => l
  | .cons n r, l => .cons n (r.append l)

instance : Append NodeList := ⟨NodeList.append⟩

/-- Number of nodes at the top level of a node list. -/
def NodeList.length : NodeList → Nat
  | .nil => 0
  | .cons _ r => r.length + 1

/-! ## Attribute helpers (DOM `getAttribute` / `setAttribute` /
`removeAttribute` semantics) -/

abbrev Attrs := List (String × String)

def getAttr (attrs : Attrs) (name : String) : Option String :=
  (attrs.find? (fun p => p.1 = name)).map (fun p => p.2)

/-- DOM `setAttribute`: update the value in place if the attribute
exists, otherwise append it. -/
def setAttr (attrs : Attrs) (name value : String) : Attrs :=
  if attrs.any (fun p => p.1 = name) then
    attrs.map (fun p => if p.1 = name then (name, value) else p)
  else
    attrs ++ [(name, value)]

def removeAttr (attrs : Attrs) (name : String) : Attrs :=
  attrs.filter (fun p => ¬ p.1 = name)

/-! ## HTML serialization (the host's `innerHTML` getter) -/

/-- Void elements: serialized without content or end tag. -/
def isVoid (t : String) : Bool :=
  ["area", "base", "br", "col", "embed", "hr", "img", "input",
   "link", "meta", "source", "track", "wbr"].contains t

/-- Raw-text elements: their text content is parsed and serialized
without character-reference processing. -/
def isRawText (t : String) : Bool :=
  t = "script" ∨ t = "style"

/-- Escape a text node for serialization: `&` `<` `>` and non-breaking
space become character references. -/
def escapeText (s : String) : String :=
  ⟨s.data.foldr (fun c acc =>
    if c = '&' then '&' :: 'a' :: 'm' :: 'p' :: ';' :: acc
    else if c = '<' then '&' :: 'l' :: 't' :: ';' :: acc
    else if c = '>' then '&' :: 'g' :: 't' :: ';' :: acc
    else if c = ' ' then '&' :: 'n' :: 'b' :: 's' :: 'p' :: ';' :: acc
    else c :: acc) []⟩

/-- Escape an attribute value for serialization: `&` `"` and
non-breaking space become character references. -/
def escapeAttr (s : String) : String :=
  ⟨s.data.foldr (fun c acc =>
    if c = '&' then '&' :: 'a' :: 'm' :: 'p' :: ';' :: acc
    else if c = '"' then '&' :: 'q' :: 'u' :: 'o' :: 't' :: ';' :: acc
    else if c = ' ' then '&' :: 'n' :: 'b' :: 's' :: 'p' :: ';' :: acc
    else c :: acc) []⟩

def attrsToString (attrs : Attrs) : String :=
  attrs.foldr (fun p acc => " " ++ p.1 ++ "=\"" ++ escapeAttr p.2 ++ "\"" ++ acc) ""

/-- Concatenated raw text payload of a node list (used to serialize the
content of raw-text elements such as `script`). -/
def rawTextOf : NodeList → String
  | .nil => ""
  | .cons (.text s) r => s ++ rawTextOf r
  | .cons _ r => rawTextOf r

mutual

def serializeNode : Node → String
  | .text s => escapeText s
  | .comment s => "<!--" ++ s ++ "-->"
  | .element t attrs cs =>
      "<" ++ t ++ attrsToString attrs ++ ">" ++
      (if isVoid t then ""
       else (if isRawText t then rawTextOf cs else serializeNodes cs) ++ "</" ++ t ++ ">")

def serializeNodes : NodeList → String
  | .nil => ""
  | .cons n rest => serializeNode n ++ serializeNodes rest

end

/-- The `innerHTML` getter of an element with tag `t` and children `cs`. -/
def innerHTMLOf (t : String) (cs : NodeList) : String :=
  if isRawText t then rawTextOf cs else serializeNodes cs

/-! ## HTML parsing (the host's `innerHTML` setter / `template.innerHTML`)

A total, fuel-driven model of HTML fragment parsing covering the
constructs the filter manipulates: elements with attributes (tag and
attribute names lower-cased, first duplicate attribute wins), character
references in text and attribute values, comments, raw-text elements
(`script`, `style`) and void elements. Error recovery is simplified:
an end tag that matches no open element is dropped, and unclosed
elements are closed at end of input. -/

inductive Tok where
  | textTok : String → Tok
  | openTok : String → Attrs → Tok
  | closeTok : String → Tok
  | commentTok : String → Tok

def lowerStr (s : String) : String :=
  ⟨s.data.map Char.toLower⟩

/-- Decode a character reference after a `&`; returns the character and
the remaining input when one of the references handled here matches. -/
def matchEntity : List Char → Option (Char × List Char)
  | 'a' :: 'm' :: 'p' :: ';' :: rest => some ('&', rest)
  | 'l' :: 't' :: ';' :: rest => some ('<', rest)
  | 'g' :: 't' :: ';' :: rest => some ('>', rest)
  | 'q' :: 'u' :: 'o' :: 't' :: ';' :: rest => some ('"', rest)
  | '#' :: '3' :: '9' :: ';' :: rest => some (Char.ofNat 39, rest)
  | 'n' :: 'b' :: 's' :: 'p' :: ';' :: rest => some (' ', rest)
  | _ => none

/-- Scan text data up to the next `<`, decoding character references. -/
def scanText : Nat → List Char → List Char × List Char
  | 0, cs => ([], cs)
  | _, [] => ([], [])
  | _ + 1, '<' :: cs => ([], '<' :: cs)
  | f + 1, '&' :: cs =>
      match matchEntity cs with
      | some (c, cs') => let (t, r) := scanText f cs'; (c :: t, r)
      | none => let (t, r) := scanText f cs; ('&' :: t, r)
  | f + 1, c :: cs => let (t, r) := scanText f cs; (c :: t, r)

/-- Scan the data of a comment up to `-->` (or end of input). -/
def scanComment : Nat → List Char → List Char × List Char
  | 0, cs => ([], cs)
  | _, [] => ([], [])
  | _ + 1, '-' :: '-' :: '>' :: cs => ([], cs)
  | f + 1, c :: cs => let (t, r) := scanComment f cs; (c :: t, r)

/-- Skip up to and including the next `>`. -/
def skipToGt : Nat → List Char → List Char
  | 0, cs => cs
  | _, [] => []
  | _ + 1, '>' :: cs => cs
  | f + 1, _ :: cs => skipToGt f cs

def isAttrNameEnd (c : Char) : Bool :=
  isHtmlWs c ∨ c = '=' ∨ c = '>' ∨ c = '/'

/-- Scan an attribute value up to a terminator, decoding character
references; `stop?` is the quote character, or `none` for an unquoted
value (terminated by whitespace or `>`). -/
def scanAttrValue (stop? : Option Char) : Nat → List Char → List Char × List Char
  | 0, cs => ([], cs)
  | _, [] => ([], [])
  | f + 1, c :: cs =>
      match stop? with
      | some q =>
          if c = q then ([], cs)
          else if c = '&' then
            match matchEntity cs with
            | some (d, cs') => let (t, r) := scanAttrValue (some q) f cs'; (d :: t, r)
            | none => let (t, r) := scanAttrValue (some q) f cs; ('&' :: t, r)
          else let (t, r) := scanAttrValue (some q) f cs; (c :: t, r)
      | none =>
          if isHtmlWs c then ([], c :: cs)
          else if c = '>' then ([], c :: cs)
          else if c = '&' then
            match matchEntity cs with
            | some (d, cs') => let (t, r) := scanAttrValue none f cs'; (d :: t, r)
            | none => let (t, r) := scanAttrValue none f cs; ('&' :: t, r)
          else let (t, r) := scanAttrValue none f cs; (c :: t, r)

/-- Parse the attribute list of a start tag, up to and including the
closing `>`. Names are lower-cased; the first occurrence of a repeated
attribute name wins. -/
def parseAttrs : Nat → List Char → Attrs → Attrs × List Char
  | 0, cs, acc => (acc, cs)
  | _, [], acc => (acc, [])
  | f + 1, c :: cs, acc =>
      if c = '>' then (acc, cs)
      else if isHtmlWs c ∨ c = '/' then parseAttrs f cs acc
      else
        let nameChars := (c :: cs).takeWhile (fun d => ¬ isAttrNameEnd d)
        let rest1 := (c :: cs).drop nameChars.length
        let name := lowerStr ⟨nameChars⟩
        let rest2 := rest1.dropWhile isHtmlWs
        match rest2 with
        | '=' :: rest3 =>
            let rest4 := rest3.dropWhile isHtmlWs
            let (v, rest5) :=
              match rest4 with
              | '"' :: r => scanAttrValue (some '"') f r
              | q :: r =>
                  if q = Char.ofNat 39 then scanAttrValue (some (Char.ofNat 39)) f r
                  else scanAttrValue none f (q :: r)
              | [] => ([], [])
            let acc' := if acc.any (fun p => p.1 = name) then acc else acc ++ [(name, ⟨v⟩)]
            parseAttrs f rest5 acc'
        | _ =>
            let acc' := if acc.any (fun p => p.1 = name) then acc else acc ++ [(name, "")]
            parseAttrs f rest2 acc'

/-- Scan the raw content of a raw-text element (`script`/`style`) up to
its matching end tag (or end of input); returns the raw data and the
input after the end tag's `>`. -/
def scanRawContent (tag : List Char) : Nat → List Char → List Char × List Char
  | 0, cs => ([], cs)
  | _, [] => ([], [])
  | f + 1, '<' :: '/' :: cs =>
      let nameChars := cs.takeWhile Char.isAlpha
      if nameChars.map Char.toLower = tag then
        ([], skipToGt f (cs.drop nameChars.length))
      else
        let (t, r) := scanRawContent tag f ('/' :: cs); ('<' :: t, r)
  | f + 1, c :: cs => let (t, r) := scanRawContent tag f cs; (c :: t, r)

/-- The tokenizer. -/
def lexTokens : Nat → List Char → List Tok
  | 0, _ => []
  | _, [] => []
  | f + 1, '<' :: '!' :: '-' :: '-' :: cs =>
      let (d, r) := scanComment (f + 1) cs
      Tok.commentTok ⟨d⟩ :: lexTokens f r
  | f + 1, '<' :: '!' :: cs =>
      -- bogus comment / doctype
      let d := cs.takeWhile (fun c => ¬ c = '>')
      Tok.commentTok ⟨d⟩ :: lexTokens f (skipToGt (f + 1) cs)
  | f + 1, '<' :: '/' :: cs =>
      let nameChars := cs.takeWhile Char.isAlpha
      if nameChars = [] then lexTokens f (skipToGt (f + 1) cs)
      else
        Tok.closeTok ⟨nameChars.map Char.toLower⟩ ::
          lexTokens f (skipToGt (f + 1) (cs.drop nameChars.length))
  | f + 1, '<' :: c :: cs =>
      if c.isAlpha then
        let nameChars := (c :: cs).takeWhile (fun d => d.isAlphanum)
        let name : String := ⟨nameChars.map Char.toLower⟩
        let (attrs, r) := parseAttrs (f + 1) ((c :: cs).drop nameChars.length) []
        if isRawText name then
          let (raw, r') := scanRawContent name.data (f + 1) r
          Tok.openTok name attrs :: Tok.textTok ⟨raw⟩ :: Tok.closeTok name :: lexTokens f r'
        else
          Tok.openTok name attrs :: lexTokens f r
      else
        let (t, r) := scanText (f + 1) (c :: cs)
        Tok.textTok ⟨'<' :: t⟩ :: lexTokens f r
  | f + 1, cs =>
      let (t, r) := scanText (f + 1) cs
      Tok.textTok ⟨t⟩ :: lexTokens f r

/-- The tree builder: turn the token stream into a node list; `stop?` is
the tag of the innermost open element. -/
def buildNodes : Nat → List Tok → Option String → NodeList × List Tok
  | 0, toks, _ => (.nil, toks)
  | _, [], _ => (.nil, [])
  | f + 1, Tok.textTok s :: rest, stop? =>
      let (ns, r) := buildNodes f rest stop?
      (.cons (.text s) ns, r)
  | f + 1, Tok.commentTok s :: rest, stop? =>
      let (ns, r) := buildNodes f rest stop?
      (.cons (.comment s) ns, r)
  | f + 1, Tok.openTok t attrs :: rest, stop? =>
      if isVoid t then
        let (ns, r) := buildNodes f rest stop?
        (.cons (.element t attrs .nil) ns, r)
      else
        let (cs, r) := buildNodes f rest (some t)
        let (ns, r') := buildNodes f r stop?
        (.cons (.element t attrs cs) ns, r')
  | f + 1, Tok.closeTok t :: rest, stop? =>
      if stop? = some t then (.nil, rest)
      else buildNodes f rest stop?

/-- The host HTML fragment parser (`template.innerHTML = s` followed by
reading `template.content`, as in `buildFragment`; also the `innerHTML`
setter used by `replaceNode`). -/
def parseHTML (s : String) : NodeList :=
  let toks := lexTokens (s.data.length + 1) s.data
  (buildNodes (toks.length + 1) toks none).1

mutual

/-- DOM `textContent` of a single node (comments contribute their data;
inside an element, comment descendants are skipped). -/
def textContentOf : Node → String
  | .text s => s
  | .comment s => s
  | .element _ _ cs => textContentList cs

/-- DOM `textContent` of an element's child list: concatenation of the
data of all descendant text nodes. -/
def textContentList : NodeList → String
  | .nil => ""
  | .cons (.comment _) r => textContentList r
  | .cons (.text s) r => s ++ textContentList r
  | .cons (.element _ _ cs) r => textContentList cs ++ textContentList r

end

/-! ## The allow-list (src/filter.js `enableTags`, src/toolset.js,
src/settings.js) -/

/-- An allow-list entry, as built by `enableTags` (src/filter.js line 33):
`allowedTags[tag] = { attributes, styles, alias, isEmpty }`, plus the
conditional `toolName`. `none` models an absent / `undefined` field. -/
structure TagEntry where
  attributes : List String := []
  styles : List String := []
  aliasTag : Option String := none
  isEmpty : Bool := false
  toolName : Option String := none
deriving Repr, DecidableEq

/-- The allow-list: a mapping from tag name to entry, modelled as an
association list with unique keys maintained by `setTag`. -/
abbrev AllowList := List (String × TagEntry)

def lookupTag (A : AllowList) (t : String) : Option TagEntry :=
  (A.find? (fun p => p.1 = t)).map (fun p => p.2)

/-- JavaScript `allowedTags[tag] = entry`: overwrite or add. -/
def setTag (A : AllowList) (t : String) (e : TagEntry) : AllowList :=
  if A.any (fun p => p.1 = t) then
    A.map (fun p => if p.1 = t then (t, e) else p)
  else
    A ++ [(t, e)]

/-- A tool descriptor (src/toolset.js). `tags? = none` models a tool
without a `tags` field (pure commands such as `indent`), which
`enableTags` skips. UI-only fields (labels, commands, form options) are
not represented. -/
structure Tool where
  tags? : Option (List String) := none
  aliasTags : List String := []
  extraTags : List String := []
  attributes : List String := []
  styles : List String := []
  isEmpty : Bool := false
deriving Repr, DecidableEq

/-- The tool registry (src/toolset.js). -/
def toolset : List (String × Tool) :=
  [("format", { tags? := some ["p", "h1", "h2", "h3", "h4"], styles := ["text-align"] }),
   ("quote", { tags? := some ["blockquote"] }),
   ("bold", { tags? := some ["strong"], aliasTags := ["b"] }),
   ("italic", { tags? := some ["em"], aliasTags := ["i"] }),
   ("underline", { tags? := some ["u"] }),
   ("strike", { tags? := some ["s"], aliasTags := ["del", "strike"] }),
   ("alignLeft", {}),
   ("alignCenter", {}),
   ("alignRight", {}),
   ("alignJustify", {}),
   ("ul", { tags? := some ["ul"], extraTags := ["li"], styles := ["text-align"] }),
   ("ol", { tags? := some ["ol"], extraTags := ["li"], styles := ["text-align"] }),
   ("indent", {}),
   ("outdent", {}),
   ("link", { tags? := some ["a"], attributes := ["href", "target"] }),
   ("image", { tags? := some ["img"], attributes := ["src", "alt"],
               styles := ["width", "display", "margin", "float"], isEmpty := true }),
   ("hr", { tags? := some ["hr"], isEmpty := true }),
   ("removeFormat", {}),
   ("unlink", {})]

def toolsetLookup (name : String) : Option Tool :=
  (toolset.find? (fun p => p.1 = name)).map (fun p => p.2)

/-- The base allow-list (`settings.allowedTags`, as shipped in the
bundled settings of the repository): the line-break tag is always
allowed and may be empty, regardless of the instance options. -/
def settingsAllowedTags : AllowList :=
  [("br", { attributes := [], styles := [], isEmpty := true })]

/-- The default tool list (`settings.tools` in src/settings.js).
Names that are not tool identifiers (separators, and `formatting`,
which has no entry in the toolset) are skipped by `enableTags`. -/
def settingsTools : List String :=
  ["formatting", "separator", "bold", "italic", "separator",
   "alignLeft", "alignCenter", "alignRight", "separator",
   "ul", "ol", "separator", "indent", "outdent", "separator", "link", "image"]

/-- src/filter.js `enableTags` (lines 14-42): enable the HTML tags
belonging to a set of tools, starting from a copy of the base
allow-list. For each tool that has tags, every tag in
`[...tool.tags, ...extraTags, ...aliasList]` receives an entry with the
tool's attributes, styles, `alias` (the first canonical tag whenever the
alias list is non-empty, otherwise `undefined`) and emptiness flag;
`toolName` is recorded unless the tag is one of the extra tags. -/
def enableTags (tools : List String) : AllowList :=
  tools.foldl (fun A toolName =>
    match toolsetLookup toolName with
    | none => A
    | some tool =>
      match tool.tags? with
      | none => A
      | some tags =>
        let isEmpty := tool.isEmpty
        let extraTags := tool.extraTags
        let aliasList := tool.aliasTags
        let aliasTarget := if aliasList.isEmpty then none else tags.head?
        let allTags := tags ++ extraTags ++ aliasList
        allTags.foldl (fun A tag =>
          setTag A tag
            { attributes := tool.attributes, styles := tool.styles,
              aliasTag := aliasTarget, isEmpty := isEmpty,
              toolName := if extraTags.contains tag then none else some toolName }) A)
    settingsAllowedTags

/-! ## CSSOM model: `element.style.textAlign = v`

Assigning to `style.textAlign` parses the existing inline style, sets or
replaces the `text-align` declaration, and re-serializes the style
attribute in the CSSOM `cssText` format (`prop: value;` separated by
spaces). Assigning the empty string removes nothing here because the
declaration is never present in the cases that reach it with `""`; per
CSSOM an empty value removes the declaration, so the attribute is left
unchanged. -/

def cssDecls (s : String) : List (String × String) :=
  (splitChar ';' s).filterMap (fun seg =>
    match splitChar ':' seg with
    | n :: v0 :: vrest =>
        let name := jsTrim n
        if name = "" then none
        else some (name, jsTrim (String.intercalate ":" (v0 :: vrest)))
    | _ => none)

def cssText (ds : List (String × String)) : String :=
  String.intercalate " " (ds.map (fun p => p.1 ++ ": " ++ p.2 ++ ";"))

def setStyleTextAlign (attrs : Attrs) (v : String) : Attrs :=
  if v = "" then attrs
  else
    let ds := match getAttr attrs "style" with
      | none => []
      | some s => cssDecls s
    let ds' :=
      if ds.any (fun p => p.1 = "text-align") then
        ds.map (fun p => if p.1 = "text-align" then (p.1, v) else p)
      else ds ++ [("text-align", v)]
    setAttr attrs "style" (cssText ds')

/-! ## src/filter.js -/

/-- The TypeError raised by `style.value.trim()` when a style
declaration has no `:`-separated value (`prop[1]` is `undefined`). -/
def styleUndefinedValueMsg : String :=
  "TypeError: Cannot read properties of undefined (reading trim)"

/-- The TypeError raised by `divChild.style.textAlign = v` when the
child is a text or comment node (`style` is `undefined` on those). -/
def styleOnNonElementMsg : String :=
  "TypeError: Cannot set properties of undefined (setting textAlign)"

/-- Parse a style attribute as `filterStyles` does (lines 102-109):
split on `;`, then split each declaration on `:`; the name is the
trimmed first part and the value is the second part, which is absent
(`undefined`) when the declaration has no `:`. -/
def parseStylePairs (sv : String) : List (String × Option String) :=
  (splitChar ';' sv).map (fun seg =>
    (jsTrim ((splitChar ':' seg).headD ""), (splitChar ':' seg)[1]?))

/-- The `text-align: left` filter of `filterStyles` (line 114),
evaluated left to right as `Array.prototype.filter` does; raises a
TypeError when a retained `text-align` declaration has no value
(`style.value.trim()` on `undefined`). -/
def dropTextAlignLeft : List (String × Option String) → Except String (List (String × Option String))
  | [] => .ok []
  | (n, v) :: rest =>
      if n = "text-align" then
        match v with
        | none => .error styleUndefinedValueMsg
        | some s =>
            match dropTextAlignLeft rest with
            | .error e => .error e
            | .ok rest' => .ok (if jsTrim s != "left" then (n, some s) :: rest' else rest')
      else
        match dropTextAlignLeft rest with
        | .error e => .error e
        | .ok rest' => .ok ((n, v) :: rest')

/-- The re-serialization map of `filterStyles` (line 117), evaluated
left to right; raises a TypeError when a retained declaration has no
value. -/
def styleStrings : List (String × Option String) → Except String (List String)
  | [] => .ok []
  | (_, none) :: _ => .error styleUndefinedValueMsg
  | (n, some s) :: rest =>
      match styleStrings rest with
      | .error e => .error e
      | .ok rest' => .ok ((n ++ ": " ++ jsTrim s ++ ";") :: rest')

/-- src/filter.js `filterStyles` (lines 97-125) applied to a non-empty
style attribute value: parse the declarations, retain those whose name
is in `allowedStyles` (dropping `text-align: left`), and re-serialize;
`some s` means the style attribute is set to `s`, `none` means it is
removed. -/
def filterStylesVal (allowedStyles : List String) (sv : String) : Except String (Option String) :=
  match dropTextAlignLeft ((parseStylePairs sv).filter (fun p => allowedStyles.contains p.1)) with
  | .error e => .error e
  | .ok pairs2 =>
      match styleStrings pairs2 with
      | .error e => .error e
      | .ok strs =>
          let s := String.join strs
          .ok (if s = "" then none else some s)

/-- The declarations `filterStyles` retains from a style attribute value
(empty when it raises instead). -/
def retainedPairs (allowedStyles : List String) (sv : String) : List (String × Option String) :=
  match dropTextAlignLeft ((parseStylePairs sv).filter (fun p => allowedStyles.contains p.1)) with
  | .error _ => []
  | .ok qs => qs

/-- The source string of `replaceNode`'s content copy (line 79):
`node.innerHTML || node.textContent || node.outerHTML`. For a text or
comment node `innerHTML` and `outerHTML` are `undefined`, so an empty
`textContent` makes the whole expression `undefined`, which the
`innerHTML` setter stringifies to `"undefined"`. -/
def replaceSource : Node → String
  | .element t attrs cs =>
      let ih := innerHTMLOf t cs
      if ih = "" then
        let tc := textContentList cs
        if tc = "" then serializeNode (.element t attrs cs) else tc
      else ih
  | .text s => if s = "" then "undefined" else s
  | .comment s => if s = "" then "undefined" else s

/-- Copy attributes one by one with `setAttribute` (lines 82-86). -/
def copyAttrsOnto (attrs : Attrs) : Attrs :=
  attrs.foldl (fun acc p => setAttr acc p.1 p.2) []

def attrsOfNode : Node → Attrs
  | .element _ a _ => a
  | _ => []

/-- src/filter.js `replaceNode` (lines 73-90): build a fresh element
with the given tag, assign it the serialized content of `node` through
`innerHTML` (which re-parses it), optionally copy the attributes, and
substitute it for `node`. -/
def replaceWithTag (tag : String) (n : Node) (copyAttributes : Bool) : Node :=
  Node.element tag
    (if copyAttributes then copyAttrsOnto (attrsOfNode n) else [])
    (parseHTML (replaceSource n))

/-- The attribute loop of `filterContent` (lines 158-175): iterate the
snapshot of the element's attributes; a disallowed `align` attribute is
converted to a `text-align` style (unless its value is `left`) and then
removed; a disallowed `style` attribute is filtered through
`filterStyles` when the entry permits styles, otherwise removed; every
other disallowed attribute is removed. -/
def attrLoop (entry : TagEntry) (alignVal : Option String) :
    List (String × String) → Attrs → Except String Attrs
  | [], current => .ok current
  | (name, _) :: restA, current =>
      if entry.attributes.contains name then attrLoop entry alignVal restA current
      else
        let current1 :=
          if name = "align" then
            match alignVal with
            | some av => if av = "left" then current else setStyleTextAlign current av
            | none => current
          else current
        if name = "style" ∧ ¬ entry.styles = [] then
          match getAttr current1 "style" with
          | none => attrLoop entry alignVal restA current1
          | some sv =>
              if sv = "" then attrLoop entry alignVal restA current1
              else do
                match ← filterStylesVal entry.styles sv with
                | some s => attrLoop entry alignVal restA (setAttr current1 "style" s)
                | none => attrLoop entry alignVal restA (removeAttr current1 "style")
        else
          attrLoop entry alignVal restA (removeAttr current1 name)

/-- The alignment propagation of the unwrap branch (lines 193-197):
`divChild.style.textAlign = v` for every child; a text or comment child
has no `style` object, so the assignment raises a TypeError. -/
def setChildrenTextAlign (v : String) : NodeList → Except String NodeList
  | .nil => .ok .nil
  | .cons (.element t a cs) rest => do
      let rest' ← setChildrenTextAlign v rest
      .ok (.cons (.element t (setStyleTextAlign a v) cs) rest')
  | .cons _ _ => .error styleOnNonElementMsg

/-- src/filter.js `filterContent` (lines 132-209), processing the child
list of a node whose tag is `parentTag` (`none` for the document
fragment) and whose current attributes are `pAttrs`. Children are
processed left to right; each element child is recursed into first,
then judged against the allow-list: allowed tags get their attributes
filtered and are replaced by their alias tag if one is set; `style`
elements are removed; other disallowed elements propagate a deprecated
`align` attribute (onto the parent list item, or onto each of their own
children) and are unwrapped. Comment children are removed. Returns the
new child list together with the possibly updated parent attributes
(the list-item branch writes to `childNode.parentNode.style`). -/
def filterChildren (A : AllowList) (parentTag : Option String) :
    NodeList → Attrs → Except String (NodeList × Attrs)
  | .nil, pAttrs => .ok (.nil, pAttrs)
  | .cons (.text s) rest, pAttrs => do
      let (ns, pa) ← filterChildren A parentTag rest pAttrs
      .ok (.cons (.text s) ns, pa)
  | .cons (.comment _) rest, pAttrs => filterChildren A parentTag rest pAttrs
  | .cons (.element t attrs cs) rest, pAttrs => do
      let (cs', attrs') ← filterChildren A (some t) cs attrs
      let alignVal := getAttr attrs' "align"
      match lookupTag A t with
      | some entry => do
          let attrs'' ← attrLoop entry alignVal attrs' attrs'
          let el :=
            match entry.aliasTag with
            | some a =>
                if a = "" then Node.element t attrs'' cs'
                else replaceWithTag a (Node.element t attrs'' cs') true
            | none => Node.element t attrs'' cs'
          let (ns, pa) ← filterChildren A parentTag rest pAttrs
          .ok (.cons el ns, pa)
      | none =>
          if t = "style" then filterChildren A parentTag rest pAttrs
          else
            match alignVal with
            | none => do
                let (ns, pa) ← filterChildren A parentTag rest pAttrs
                .ok (cs' ++ ns, pa)
            | some v =>
                if parentTag = some "li" then do
                  let (ns, pa) ← filterChildren A parentTag rest (setStyleTextAlign pAttrs v)
                  .ok (cs' ++ ns, pa)
                else do
                  let cs'' ← setChildrenTextAlign v cs'
                  let (ns, pa) ← filterChildren A parentTag rest pAttrs
                  .ok (cs'' ++ ns, pa)

/-! ## src/filter.js `wrapTextNodes` and `cleanContent` -/

def upperStr (s : String) : String :=
  ⟨s.data.map Char.toUpper⟩

/-- Block type HTML elements (src/common.js lines 11-14). -/
def blockElements : List String :=
  ["BLOCKQUOTE", "HR", "P", "OL", "UL", "H1", "H2", "H3", "H4"]

/-- The boundary test of `wrapTextNodes` (line 254):
`childNode.nodeType !== 3 && blockElements.includes(childNode.tagName)`.
A text node fails the first conjunct; a comment has no `tagName`. -/
def isBlockChild (n : Node) : Bool :=
  match n with
  | .element t _ _ => blockElements.contains (upperStr t)
  | _ => false

/-- `prev.appendChild(childNode)` where `prev` is the paragraph that
currently ends the run. -/
def appendChildNode : Node → Node → Node
  | .element t a cs, c => .element t a (cs ++ NodeList.cons c .nil)
  | n, _ => n

/-- `replaceNode(childNode, 'p')` as used by `wrapTextNodes` (line 272):
no attribute copy. -/
def mkWrapP (c : Node) : Node :=
  Node.element "p" [] (parseHTML (replaceSource c))

/-- The loop of `wrapTextNodes`: the `Option Node` state holds the
paragraph currently being filled when `appendToPrev` is true (it is
always the previous element sibling of the next child in that case). -/
def wrapGo : NodeList → Option Node → NodeList
  | .nil, none => .nil
  | .nil, some p => .cons p .nil
  | .cons c rest, none =>
      if isBlockChild c then .cons c (wrapGo rest none)
      else wrapGo rest (some (mkWrapP c))
  | .cons c rest, some p =>
      if isBlockChild c then .cons p (.cons c (wrapGo rest none))
      else wrapGo rest (some (appendChildNode p c))

/-- src/filter.js `wrapTextNodes` (lines 244-277): wrap the runs of
non-block children of the root in paragraphs, non-recursively. -/
def wrapTextNodes (l : NodeList) : NodeList :=
  wrapGo l none

/-- src/filter.js `cleanContent` (lines 216-238): recursively remove
element nodes whose tag is allowed, is not marked `isEmpty`, and whose
trimmed inner content is empty; children are cleaned before the parent
is judged. -/
def cleanList (A : AllowList) : NodeList → NodeList
  | .nil => .nil
  | .cons (.element t attrs cs) rest =>
      let cs' := cleanList A cs
      match lookupTag A t with
      | some entry =>
          if ¬ entry.isEmpty ∧ jsTrim (innerHTMLOf t cs') = "" then cleanList A rest
          else .cons (.element t attrs cs') (cleanList A rest)
      | none => .cons (.element t attrs cs') (cleanList A rest)
  | .cons n rest => .cons n (cleanList A rest)

/-! ## src/filter.js `prepareContent` -/

/-- src/filter.js `prepareContent` (lines 51-65) on top of
`buildFragment` (src/utils.js lines 47-52, which trims the raw string
and parses it): filter the fragment, and unless `filterOnly` is set,
wrap the top-level text runs and prune empty nodes; serialize the
result. A JavaScript TypeError anywhere in the pipeline is an
`Except.error`. -/
def prepareContent (content : String) (A : AllowList) (filterOnly : Bool) :
    Except String String :=
  match filterChildren A none (parseHTML (jsTrim content)) [] with
  | .error e => .error e
  | .ok (ns, _) =>
      .ok (serializeNodes (if filterOnly then ns else cleanList A (wrapTextNodes ns)))

/-- The node list whose serialization `prepareContent content A false`
returns. -/
def pipelineNodes (content : String) (A : AllowList) : Except String NodeList :=
  match filterChildren A none (parseHTML (jsTrim content)) [] with
  | .error e => .error e
  | .ok (ns, _) => .ok (cleanList A (wrapTextNodes ns))

/-! ## Specification-side definitions

These state the properties claimed of the code; they are compared with
the translated source functions by the theorems below. -/

/-- The longest prefix of consecutive non-block siblings (a "maximal
run" in the structural-wrapping specification). -/
def takeNonBlock : NodeList → NodeList
  | .nil => .nil
  | .cons c rest => if isBlockChild c then .nil else .cons c (takeNonBlock rest)

/-- The remainder after the longest prefix of non-block siblings; it is
empty or starts with a block element. -/
def dropNonBlock : NodeList → NodeList
  | .nil => .nil
  | .cons c rest => if isBlockChild c then .cons c rest else dropNonBlock rest

def dropNonBlock_length_le : ∀ l : NodeList, (dropNonBlock l).length ≤ l.length
  | .nil => Nat.le_refl _
  | .cons c rest => by
      by_cases h : isBlockChild c
      · simp [dropNonBlock, h, NodeList.length]
      · simp only [dropNonBlock, h, if_neg, Bool.false_eq_true, ite_false, NodeList.length]
        exact Nat.le_succ_of_le (dropNonBlock_length_le rest)

/-- The structural-wrapping specification: recognized block elements are
left untouched and act as run boundaries; every maximal run of
consecutive non-block siblings becomes exactly one paragraph (whose
content is the run, the head spliced through `replaceNode`). -/
def wrapSpec : NodeList → NodeList
  | .nil => .nil
  | .cons c rest =>
      if isBlockChild c then .cons c (wrapSpec rest)
      else
        .cons (Node.element "p" [] (parseHTML (replaceSource c) ++ takeNonBlock rest))
          (wrapSpec (dropNonBlock rest))
termination_by l => l.length
decreasing_by
  · simp only [NodeList.length]; omega
  · simp only [NodeList.length]
    exact Nat.lt_succ_of_le (dropNonBlock_length_le _)

/-- Fold of `appendChildNode` over a run (the paragraph being filled
absorbs the run members one by one). -/
def appendRun : Node → NodeList → Node
  | p, .nil => p
  | p, .cons c rest => appendRun (appendChildNode p c) rest

/-- All element nodes of a tree, as (tag, attributes, children)
triples, in document order. -/
def elemsOf : NodeList → List (String × Attrs × NodeList)
  | .nil => []
  | .cons (.element t a cs) rest => (t, a, cs) :: (elemsOf cs ++ elemsOf rest)
  | .cons _ rest => elemsOf rest

/-- An element satisfies the no-empty-elements specification for
allow-list `A`: if its tag has an entry that is not marked `isEmpty`,
its trimmed inner content is non-empty. -/
def nonEmptyOk (A : AllowList) (e : String × Attrs × NodeList) : Prop :=
  ∀ entry, lookupTag A e.1 = some entry → entry.isEmpty = false →
    ¬ jsTrim (innerHTMLOf e.1 e.2.2) = ""

/-- The (amended) registration specification for a single tool: every
tag in canonical ∪ extra ∪ alias tags receives an entry carrying the
tool's attributes, styles and emptiness flag; the alias target (the
first canonical tag) is recorded on every one of those tags whenever
the tool declares at least one alias tag, and on none otherwise; the
originating tool is recorded unless the tag is an extra tag. -/
abbrev toolRegisteredSpec (toolName : String) (tool : Tool) : Prop :=
  ∀ tags ∈ tool.tags?.toList, ∀ tag ∈ tags ++ tool.extraTags ++ tool.aliasTags,
    lookupTag (enableTags [toolName]) tag =
      some { attributes := tool.attributes, styles := tool.styles,
             aliasTag := if tool.aliasTags.isEmpty then none else tags.head?,
             isEmpty := tool.isEmpty,
             toolName := if tool.extraTags.contains tag then none else some toolName }

/-! # Theorems -/

theorem NodeList.cons_append (n : Node) (r l : NodeList) :
    NodeList.cons n r ++ l = NodeList.cons n (r ++ l) := rfl

theorem NodeList.append_nil : ∀ l : NodeList, l ++ NodeList.nil = l
  | .nil => rfl
  | .cons n r => by rw [NodeList.cons_append, NodeList.append_nil r]

theorem NodeList.append_assoc : ∀ a b c : NodeList, a ++ b ++ c = a ++ (b ++ c)
  | .nil, _, _ => rfl
  | .cons n r, b, c => by
      rw [NodeList.cons_append, NodeList.cons_append, NodeList.cons_append,
        NodeList.append_assoc r b c]

theorem appendRun_element : ∀ (l : NodeList) (t : String) (a : Attrs) (cs : NodeList),
    appendRun (Node.element t a cs) l = Node.element t a (cs ++ l)
  | .nil, t, a, cs => by rw [appendRun, NodeList.append_nil]
  | .cons c rest, t, a, cs => by
      rw [appendRun, appendChildNode, appendRun_element rest,
        NodeList.append_assoc, NodeList.cons_append]
      rfl

mutual

theorem wrapGo_none_eq : ∀ l : NodeList, wrapGo l none = wrapSpec l
  | .nil => by simp [wrapGo, wrapSpec]
  | .cons c rest => by
      by_cases h : isBlockChild c
      · rw [show wrapGo (.cons c rest) none = .cons c (wrapGo rest none) by simp [wrapGo, h]]
        rw [wrapGo_none_eq rest]
        simp [wrapSpec, h]
      · rw [show wrapGo (.cons c rest) none = wrapGo rest (some (mkWrapP c)) by
          simp [wrapGo, h]]
        rw [wrapGo_some_eq rest (mkWrapP c)]
        simp only [wrapSpec, h, Bool.false_eq_true, ite_false]
        rw [mkWrapP, appendRun_element]

theorem wrapGo_some_eq : ∀ (l : NodeList) (p : Node),
    wrapGo l (some p) = .cons (appendRun p (takeNonBlock l)) (wrapSpec (dropNonBlock l))
  | .nil, p => by simp [wrapGo, takeNonBlock, dropNonBlock, appendRun, wrapSpec]
  | .cons c rest, p => by
      by_cases h : isBlockChild c
      · rw [show wrapGo (.cons c rest) (some p) = .cons p (.cons c (wrapGo rest none)) by
          simp [wrapGo, h]]
        rw [wrapGo_none_eq rest]
        simp [takeNonBlock, dropNonBlock, h, appendRun, wrapSpec]
      · rw [show wrapGo (.cons c rest) (some p) = wrapGo rest (some (appendChildNode p c)) by
          simp [wrapGo, h]]
        rw [wrapGo_some_eq rest (appendChildNode p c)]
        simp [takeNonBlock, dropNonBlock, h, appendRun]

end

/-- Every element node left anywhere in the output of `cleanContent`
satisfies the no-empty-elements specification: the pruner judges each
element after its own subtree has been cleaned, and removes it exactly
when its entry forbids emptiness and its trimmed inner content is
empty. -/
theorem cleanList_nonEmptyOk :
    ∀ (A : AllowList) (l : NodeList) (e : String × Attrs × NodeList),
      e ∈ elemsOf (cleanList A l) → nonEmptyOk A e
  | A, .nil, e, h => by simp [cleanList, elemsOf] at h
  | A, .cons (.text s) rest, e, h => by
      simp only [cleanList, elemsOf] at h
      exact cleanList_nonEmptyOk A rest e h
  | A, .cons (.comment s) rest, e, h => by
      simp only [cleanList, elemsOf] at h
      exact cleanList_nonEmptyOk A rest e h
  | A, .cons (.element t a cs) rest, e, h => by
      simp only [cleanList] at h
      cases hl : lookupTag A t with
      | none =>
          simp only [hl, elemsOf] at h
          rcases List.mem_cons.mp h with he | hmem
          · subst he
            intro entry heq
            rw [hl] at heq
            exact absurd heq (by simp)
          · rcases List.mem_append.mp hmem with hcs | hrest
            · exact cleanList_nonEmptyOk A cs e hcs
            · exact cleanList_nonEmptyOk A rest e hrest
      | some entry =>
          simp only [hl] at h
          split_ifs at h with hcond
          · exact cleanList_nonEmptyOk A rest e h
          · simp only [elemsOf] at h
            rcases List.mem_cons.mp h with he | hmem
            · subst he
              intro entry' heq hni
              rw [hl] at heq
              have hent : entry' = entry := by
                injection heq with h'
                exact h'.symm
              subst hent
              intro hempty
              exact hcond ⟨by simp [hni], hempty⟩
            · rcases List.mem_append.mp hmem with hcs | hrest
              · exact cleanList_nonEmptyOk A cs e hcs
              · exact cleanList_nonEmptyOk A rest e hrest

/-- Declarations retained by the `text-align: left` filter come from its
input list. -/
theorem dropTextAlignLeft_sub :
    ∀ (ps qs : List (String × Option String)), dropTextAlignLeft ps = .ok qs →
      ∀ q ∈ qs, q ∈ ps := by
  intro ps
  induction ps with
  | nil =>
      intro qs h q hq
      simp only [dropTextAlignLeft, Except.ok.injEq] at h
      subst h
      simp at hq
  | cons p rest ih =>
      intro qs h q hq
      obtain ⟨n, v⟩ := p
      simp only [dropTextAlignLeft] at h
      split_ifs at h with hn
      · cases v with
        | none => simp at h
        | some s =>
            cases hr : dropTextAlignLeft rest with
            | error e => rw [hr] at h; simp at h
            | ok rest' =>
                rw [hr] at h
                simp only [Except.ok.injEq] at h
                subst h
                by_cases hk : (jsTrim s != "left") = true
                · rw [if_pos hk] at hq
                  rcases List.mem_cons.mp hq with hq | hq
                  · subst hq; exact List.mem_cons_self _ _
                  · exact List.mem_cons_of_mem _ (ih rest' hr q hq)
                · rw [if_neg hk] at hq
                  exact List.mem_cons_of_mem _ (ih rest' hr q hq)
      · cases hr : dropTextAlignLeft rest with
        | error e => rw [hr] at h; simp at h
        | ok rest' =>
            rw [hr] at h
            simp only [Except.ok.injEq] at h
            subst h
            rcases List.mem_cons.mp hq with hq | hq
            · subst hq; exact List.mem_cons_self _ _
            · exact List.mem_cons_of_mem _ (ih rest' hr q hq)

/-- The `text-align: left` filter succeeds when every declaration has a
value. -/
theorem dropTextAlignLeft_ok :
    ∀ ps : List (String × Option String), (∀ p ∈ ps, p.2.isSome = true) →
      ∃ qs, dropTextAlignLeft ps = .ok qs := by
  intro ps
  induction ps with
  | nil => intro _; exact ⟨[], rfl⟩
  | cons p rest ih =>
      intro hps
      obtain ⟨n, v⟩ := p
      obtain ⟨rest', hrest⟩ := ih (fun q hq => hps q (List.mem_cons_of_mem _ hq))
      have hv : v.isSome = true := hps (n, v) (List.mem_cons_self _ _)
      cases v with
      | none => simp at hv
      | some s =>
          simp only [dropTextAlignLeft, hrest]
          by_cases hn : n = "text-align"
          · rw [if_pos hn]
            exact ⟨_, rfl⟩
          · rw [if_neg hn]
            exact ⟨_, rfl⟩

/-- The re-serialization map succeeds exactly on declarations with
values, producing `name: value;` strings. -/
theorem styleStrings_eq_of_ok :
    ∀ (ps : List (String × Option String)) (ss : List String), styleStrings ps = .ok ss →
      ss = ps.map (fun p => p.1 ++ ": " ++ jsTrim (p.2.getD "") ++ ";") := by
  intro ps
  induction ps with
  | nil =>
      intro ss h
      simp only [styleStrings, Except.ok.injEq] at h
      subst h
      simp
  | cons p rest ih =>
      intro ss h
      obtain ⟨n, v⟩ := p
      cases v with
      | none => simp [styleStrings] at h
      | some s =>
          simp only [styleStrings] at h
          cases hr : styleStrings rest with
          | error e => rw [hr] at h; simp at h
          | ok rest' =>
              rw [hr] at h
              simp only [Except.ok.injEq] at h
              subst h
              simp only [List.map_cons, Option.getD_some]
              rw [ih rest' hr]

/-- The re-serialization map succeeds when every declaration has a
value. -/
theorem styleStrings_ok :
    ∀ ps : List (String × Option String), (∀ p ∈ ps, p.2.isSome = true) →
      ∃ ss, styleStrings ps = .ok ss := by
  intro ps
  induction ps with
  | nil => intro _; exact ⟨[], rfl⟩
  | cons p rest ih =>
      intro hps
      obtain ⟨n, v⟩ := p
      obtain ⟨rest', hrest⟩ := ih (fun q hq => hps q (List.mem_cons_of_mem _ hq))
      have hv : v.isSome = true := hps (n, v) (List.mem_cons_self _ _)
      cases v with
      | none => simp at hv
      | some s =>
          simp only [styleStrings]
          simp only [hrest]
          exact ⟨_, rfl⟩

/-- A string of whitespace characters trims to the empty string. -/
theorem jsTrim_eq_empty_of_ws (s : String) (h : ∀ c ∈ s.data, isJsWs c = true) :
    jsTrim s = "" := by
  have h1 : List.dropWhile isJsWs s.data = [] := by
    rw [List.dropWhile_eq_nil_iff]
    exact h
  rw [jsTrim, h1]
  rfl

/-- `prepareContent … false` returns exactly the serialization of
`pipelineNodes`. -/
theorem prepareContent_eq_serialize_pipeline (H : String) (A : AllowList) (ns : NodeList)
    (h : pipelineNodes H A = .ok ns) :
    prepareContent H A false = .ok (serializeNodes ns) := by
  rw [pipelineNodes] at h
  rw [prepareContent]
  cases hfc : filterChildren A none (parseHTML (jsTrim H)) [] with
  | error msg =>
      rw [hfc] at h
      exact absurd h (by simp)
  | ok p =>
      rw [hfc] at h
      cases p with
      | mk ns0 pa =>
          simp only [Except.ok.injEq] at h
          simp [← h]

/-! # Claim theorems -/

/-- C1 (code bug). The claim states tag containment: every element tag
in the output of `prepareContent H A false` is registered in `A`
(aliases resolved), including when `H` is plain text whose characters
encode markup. The code violates this on exactly the highlighted input:
`prepareContent` on the entity-encoded text `&lt;script&gt;x&lt;/script&gt;`
with the default allow-list returns markup containing a real `script`
element (and a `p` wrapper) although neither tag is registered: the
text decodes to the single text node `<script>x</script>`, and
`wrapTextNodes`' use of `replaceNode` assigns that raw text back
through `innerHTML`, re-parsing it into live markup. -/
theorem c1_tag_containment :
    prepareContent "&lt;script&gt;x&lt;/script&gt;" (enableTags settingsTools) false =
      .ok "<p><script>x</script></p>" ∧
    lookupTag (enableTags settingsTools) "script" = none ∧
    lookupTag (enableTags settingsTools) "p" = none :=
  ⟨rfl, rfl, rfl⟩

/-- C2 (code bug). The claim states idempotence of
`prepareContent · A false`. The code violates it: on the entity-encoded
input `&lt;b&gt;x` the first pass outputs `<p><b>x</b></p>` (the `b`
produced by `replaceNode`'s `innerHTML` re-parse is never seen by the
filter, which ran earlier), while the second pass rewrites the alias
`b` to `strong`, so running the pipeline twice differs from running it
once. -/
theorem c2_idempotence :
    prepareContent "&lt;b&gt;x" (enableTags ["format", "bold"]) false =
      .ok "<p><b>x</b></p>" ∧
    prepareContent "<p><b>x</b></p>" (enableTags ["format", "bold"]) false =
      .ok "<p><strong>x</strong></p>" ∧
    ("<p><b>x</b></p>" : String) ≠ "<p><strong>x</strong></p>" :=
  ⟨rfl, rfl, by decide⟩

/-- C3 (code bug). The claim states totality: `prepareContent`
terminates normally and returns a string for every input and never
throws. The code violates it: on `<div align="center">x</div>` (with
`div` not in the allow-list) the unwrap branch of `filterContent`
executes `divChild.style.textAlign = 'center'` on the `div`'s text
child, and text nodes have no `style` object, so a TypeError is raised
(already with `filterOnly = true`, i.e. in the filter itself). -/
theorem c3_totality :
    prepareContent "<div align=\"center\">x</div>" (enableTags settingsTools) true =
      .error styleOnNonElementMsg ∧
    lookupTag (enableTags settingsTools) "div" = none :=
  ⟨rfl, rfl⟩

/-- C4 (code bug). The claim's own example `<div align="center">x</div>`
(with `div` not allowed) is stated to unwrap to `x` with a
`text-align: center` style on the surviving container; instead the code
raises a TypeError, because the alignment is propagated by assigning
`style.textAlign` on each child of the `div` and its only child is a
text node. The rule the claim describes does hold when the children are
elements: alignment lands on each child, or on the parent list item
when the parent is an `li` (second and third conjuncts). -/
theorem c4_alignment_migration :
    prepareContent "<div align=\"center\">x</div>" (enableTags ["format"]) false =
      .error styleOnNonElementMsg ∧
    prepareContent "<div align=\"center\"><p>y</p></div>" (enableTags ["format"]) false =
      .ok "<p style=\"text-align: center;\">y</p>" ∧
    prepareContent "<ul><li><div align=\"center\"><p>y</p></div></li></ul>"
        (enableTags ["format", "ul"]) false =
      .ok "<ul><li style=\"text-align: center;\"><p>y</p></li></ul>" :=
  ⟨rfl, rfl, rfl⟩

/-- C5 (counterexample). The claim states that an alias target is
recorded only when the registered tag is itself an alias tag; but
`enableTags` computes one alias value per tool and stores it on every
tag of the tool, so the canonical tag `strong` of the `bold` tool (not
one of its alias tags) also carries the alias target `strong`. -/
theorem c5_alias_counterexample :
    lookupTag (enableTags ["bold"]) "strong" =
      some { attributes := [], styles := [], aliasTag := some "strong",
             isEmpty := false, toolName := some "bold" } ∧
    ∀ tool ∈ (toolsetLookup "bold").toList, "strong" ∉ tool.aliasTags := by
  decide

/-- C5 (amended). For every tool of the toolset with declared tags,
`enableTags` registers every tag in canonical ∪ extra ∪ alias tags with
the tool's attributes, styles and emptiness flag; the alias target (the
first canonical tag) is recorded on every such tag whenever the tool
declares at least one alias tag (not only on the alias tags
themselves), and on none otherwise; extra tags are registered without
an originating-tool identifier while canonical and alias tags record
it. -/
theorem c5_allowlist_registration :
    ∀ p ∈ toolset, toolRegisteredSpec p.1 p.2 := by
  decide

/-- Witness for C5 at the `bold` tool and its alias tag `b`. -/
theorem c5_allowlist_registration_witness :
    lookupTag (enableTags ["bold"]) "b" =
      some { attributes := [], styles := [], aliasTag := some "strong",
             isEmpty := false, toolName := some "bold" } := by
  have h := c5_allowlist_registration ("bold", { tags? := some ["strong"], aliasTags := ["b"] })
    (by decide)
  have h2 := h ["strong"] (by decide) "b" (by decide)
  exact h2

/-- C6 (confirmed). Style filtering: the claim's example
`<p style="color:red;text-align:center">x</p>` with only `text-align`
permitted sanitizes to `<p style="text-align: center;">x</p>`; a
retained `text-align: left` is dropped; the style attribute is removed
entirely when nothing is retained; and in general a successful
`filterStyles` keeps only declarations whose property is permitted and
re-serializes them as `prop: value;` joined with no separator. -/
theorem c6_style_filtering :
    prepareContent "<p style=\"color:red;text-align:center\">x</p>" (enableTags ["format"]) false =
      .ok "<p style=\"text-align: center;\">x</p>" ∧
    prepareContent "<p style=\"text-align:left\">x</p>" (enableTags ["format"]) false =
      .ok "<p>x</p>" ∧
    prepareContent "<p style=\"color:red\">x</p>" (enableTags ["format"]) false =
      .ok "<p>x</p>" ∧
    ∀ (allowed : List String) (sv s : String),
      filterStylesVal allowed sv = .ok (some s) →
      (∀ q ∈ retainedPairs allowed sv, allowed.contains q.1 = true) ∧
      s = String.join ((retainedPairs allowed sv).map
        (fun q => q.1 ++ ": " ++ jsTrim (q.2.getD "") ++ ";")) := by
  refine ⟨rfl, rfl, rfl, ?_⟩
  intro allowed sv s h
  cases hd : dropTextAlignLeft ((parseStylePairs sv).filter (fun p => allowed.contains p.1)) with
  | error e =>
      rw [filterStylesVal, hd] at h
      exact absurd h (by simp)
  | ok qs =>
      rw [filterStylesVal, hd] at h
      replace h : (match styleStrings qs with
        | Except.error e => Except.error e
        | Except.ok strs =>
            Except.ok (if String.join strs = "" then none else some (String.join strs))) =
          Except.ok (some s) := h
      cases hs : styleStrings qs with
      | error e =>
          rw [hs] at h
          exact absurd h (by simp)
      | ok strs =>
          rw [hs] at h
          replace h : Except.ok (if String.join strs = "" then none
              else some (String.join strs)) = Except.ok (some s) := h
          have hret : retainedPairs allowed sv = qs := by
            rw [retainedPairs, hd]
          constructor
          · intro q hq
            rw [hret] at hq
            have hqin := dropTextAlignLeft_sub _ qs hd q hq
            exact (List.mem_filter.mp hqin).2
          · have hjoin : s = String.join strs := by
              by_cases hz : String.join strs = ""
              · rw [if_pos hz] at h; simp at h
              · rw [if_neg hz] at h
                simp only [Except.ok.injEq, Option.some.injEq] at h
                exact h.symm
            rw [hjoin, hret, styleStrings_eq_of_ok qs strs hs]

/-- Witness for the general conjunct of C6 at the claim's example. -/
theorem c6_style_filtering_witness :
    "text-align: center;" = String.join ((retainedPairs ["text-align"]
      "color:red;text-align:center").map
      (fun q => q.1 ++ ": " ++ jsTrim (q.2.getD "") ++ ";")) :=
  ((c6_style_filtering.2.2.2) ["text-align"] "color:red;text-align:center"
    "text-align: center;" rfl).2

/-- C7 (counterexample). The claim states that `filterStyles` completes
without raising an error for every malformed style attribute; but a
declaration with no `:`-separated value whose trimmed name is itself a
permitted property (here `color` with `color` permitted) reaches
`value.trim()` with `value` equal to `undefined`, raising a
TypeError. -/
theorem c7_malformed_styles_counterexample :
    filterStylesVal ["color"] "color" = .error styleUndefinedValueMsg := rfl

/-- C7 (amended). Malformed style declarations are non-fatal provided
no value-less declaration's trimmed property name is itself in the
permitted set: such declarations (including stray `;` separators, whose
empty segments have the empty name) are silently dropped by the
allow-list filter before the code dereferences their missing value. -/
theorem c7_malformed_styles (allowed : List String) (sv : String)
    (h : ∀ seg ∈ splitChar ';' sv,
      ((splitChar ':' seg)[1]?).isNone = true →
      ¬ jsTrim ((splitChar ':' seg).headD "") ∈ allowed) :
    ∃ r, filterStylesVal allowed sv = .ok r := by
  have hsome : ∀ p ∈ (parseStylePairs sv).filter (fun p => allowed.contains p.1),
      p.2.isSome = true := by
    intro p hp
    rw [List.mem_filter] at hp
    obtain ⟨hpm, hpc⟩ := hp
    rw [parseStylePairs, List.mem_map] at hpm
    obtain ⟨seg, hseg, rfl⟩ := hpm
    by_contra hns
    have hns' : ¬ ((splitChar ':' seg)[1]?).isSome = true := hns
    have hpc' : allowed.contains (jsTrim ((splitChar ':' seg).headD "")) = true := hpc
    have hnone : ((splitChar ':' seg)[1]?).isNone = true := by
      cases hx : (splitChar ':' seg)[1]? with
      | none => rfl
      | some w => rw [hx] at hns'; simp at hns'
    exact h seg hseg hnone (by simpa using hpc')
  obtain ⟨qs, hqs⟩ := dropTextAlignLeft_ok _ hsome
  obtain ⟨ss, hss⟩ := styleStrings_ok qs
    (fun q hq => hsome q (dropTextAlignLeft_sub _ qs hqs q hq))
  simp only [filterStylesVal, hqs, hss]
  exact ⟨_, rfl⟩

/-- Witness for C7 at a malformed attribute (`color;;`: a value-less
declaration plus stray separators) with `text-align` permitted. -/
theorem c7_malformed_styles_witness :
    (filterStylesVal ["text-align"] "color;;").isOk = true := by
  obtain ⟨r, hr⟩ := c7_malformed_styles ["text-align"] "color;;" (by decide)
  rw [hr]
  rfl

/-- C8 (confirmed). Structural wrapping: `wrapTextNodes` equals the
run-based specification `wrapSpec` on every child list — recognized
block elements (blockquote, hr, p, ol, ul, h1–h4) are left untouched
and bound the runs, and every maximal run of consecutive non-block
siblings becomes exactly one paragraph — and the bare text input
`plain text` sanitizes to `<p>plain text</p>` under the default
allow-list. -/
theorem c8_structural_wrapping :
    (∀ l : NodeList, wrapTextNodes l = wrapSpec l) ∧
    prepareContent "plain text" (enableTags settingsTools) false =
      .ok "<p>plain text</p>" :=
  ⟨fun l => wrapGo_none_eq l, rfl⟩

/-- C9 (confirmed). No empty non-empty-able elements: whenever the
pipeline (filter, wrap, clean) succeeds, its serialized output is the
`prepareContent` result, and every element left in the output tree
whose tag has an allow-list entry not marked `isEmpty` has non-empty
trimmed inner content. -/
theorem c9_no_empty_elements (H : String) (A : AllowList) (ns : NodeList)
    (h : pipelineNodes H A = .ok ns) :
    prepareContent H A false = .ok (serializeNodes ns) ∧
    ∀ e ∈ elemsOf ns, nonEmptyOk A e := by
  constructor
  · exact prepareContent_eq_serialize_pipeline H A ns h
  · intro e he
    rw [pipelineNodes] at h
    cases hfc : filterChildren A none (parseHTML (jsTrim H)) [] with
    | error msg => rw [hfc] at h; simp at h
    | ok p =>
        rw [hfc] at h
        cases p with
        | mk ns0 pa =>
            simp only [Except.ok.injEq] at h
            subst h
            exact cleanList_nonEmptyOk A (wrapTextNodes ns0) e he

/-- Witness for C9 at `<p>a</p>` with the `format` tool enabled. -/
theorem c9_no_empty_elements_witness :
    ¬ jsTrim (innerHTMLOf "p" (NodeList.cons (Node.text "a") NodeList.nil)) = "" :=
  (c9_no_empty_elements "<p>a</p>" (enableTags ["format"])
      (NodeList.cons (Node.element "p" []
        (NodeList.cons (Node.text "a") NodeList.nil)) NodeList.nil)
      rfl).2
    ("p", [], NodeList.cons (Node.text "a") NodeList.nil)
    (List.Mem.head _)
    { attributes := [], styles := ["text-align"], aliasTag := none,
      isEmpty := false, toolName := some "format" }
    rfl rfl

/-- C10 (confirmed). Implicit whitespace policy: the raw input is
trimmed before parsing, so a whitespace-only input yields the empty
string (for every allow-list), and two inputs with equal trims yield
identical output (for every allow-list and `filterOnly` flag). -/
theorem c10_whitespace_trim :
    (∀ (A : AllowList) (s : String), (∀ c ∈ s.data, isJsWs c = true) →
        prepareContent s A false = .ok "") ∧
    (∀ (A : AllowList) (filterOnly : Bool) (s t : String), jsTrim s = jsTrim t →
        prepareContent s A filterOnly = prepareContent t A filterOnly) := by
  constructor
  · intro A s hws
    rw [prepareContent, jsTrim_eq_empty_of_ws s hws]
    rfl
  · intro A f s t h
    rw [prepareContent, prepareContent, h]

/-- Witness for C10 at a whitespace-only input and a pair of inputs
differing only in leading/trailing whitespace. -/
theorem c10_whitespace_trim_witness :
    prepareContent " " ([] : AllowList) false = .ok "" ∧
    prepareContent "  a" ([] : AllowList) true = prepareContent "a  " ([] : AllowList) true :=
  ⟨c10_whitespace_trim.1 [] " " (by decide),
   c10_whitespace_trim.2 [] true "  a" "a  " rfl⟩

end Wysi
